import Mathlib

/-
Verification of the DictObject repository (src/__init__.py) against its
specification.  The single Python class `DictObject` is a dict subclass with a
secondary index `_attribute_to_key_map` from derived identifier names back to
the original keys.  We embed the class shallowly: the backing store and the
secondary index become association lists, the methods become total Lean
functions returning `Except PyErr _` where the Python code can raise.
-/

/-- Errors raised by the Python code paths that the claims exercise. -/
inductive PyErr where
  | typeError
  | keyError
  | indexError
  | attributeError (name : String)
deriving DecidableEq, Repr

/-- Keys of a DictObject: hashable Python values as used by the repository
(strings, ints, booleans, None). -/
inductive PyKey where
  | str (s : String)
  | int (n : Int)
  | bool (b : Bool)
  | none
deriving DecidableEq, Repr

/-- Decimal digit character, as produced by Python str() on a number. -/
def digitChar : Nat → Char
  | 0 => '0' | 1 => '1' | 2 => '2' | 3 => '3' | 4 => '4'
  | 5 => '5' | 6 => '6' | 7 => '7' | 8 => '8' | _ => '9'

/-- Decimal digits of a natural number, most significant first.  Fuel-indexed
so that the definition is structurally recursive; `natDigits` supplies fuel
`n + 1`, which always suffices because the argument shrinks by a factor of
ten at each step. -/
def natDigitsAux : Nat → Nat → List Char
  | 0, _ => []
  | fuel + 1, n =>
    if n < 10 then [digitChar n]
    else natDigitsAux fuel (n / 10) ++ [digitChar (n % 10)]

def natDigits (n : Nat) : List Char := natDigitsAux (n + 1) n

/-- Python str() of a natural number. -/
def natRepr (n : Nat) : String := ⟨natDigits n⟩

/-- Python str() of an integer. -/
def intRepr : Int → String
  | .ofNat n => natRepr n
  | .negSucc n => "-" ++ natRepr (n + 1)

/-- Python str() on a key: identity on strings, "True"/"False" on booleans,
"None" on None, decimal form on integers. -/
def pyStr : PyKey → String
  | .str s => s
  | .int n => intRepr n
  | .bool true => "True"
  | .bool false => "False"
  | .none => "None"

/-- Characters that the regex `[\W]+` of the source leaves alone: the word
characters `[A-Za-z0-9_]`. -/
def isWordChar (c : Char) : Bool := c.isAlphanum || c = '_'

/-- Replacement of every maximal run of non-word characters by one underscore,
the effect of `re.sub` with the compiled pattern `[\W]+`.  The boolean flag
records whether the previous character belonged to such a run. -/
def sanitizeAux : Bool → List Char → List Char
  | _, [] => []
  | inRun, c :: cs =>
    if isWordChar c then c :: sanitizeAux false cs
    else if inRun then sanitizeAux true cs
    else '_' :: sanitizeAux true cs

def sanitize (s : String) : String := ⟨sanitizeAux false s.data⟩

/-- Translation of `DictObject.get_attribute_name_by_key` (src lines 214-224):
take str(key); if its first character is a digit prefix "int_", else if the
key is not a string prefix "data_"; finally sanitize.  Indexing `str(key)[0]`
raises IndexError when str(key) is empty. -/
def get_attribute_name_by_key (key : PyKey) : Except PyErr String :=
  match (pyStr key).data with
  | [] => .error .indexError
  | c :: _ =>
    let base :=
      if c.isDigit then "int_" ++ pyStr key
      else
        match key with
        | .str _ => pyStr key
        | _ => "data_" ++ pyStr key
    .ok (sanitize base)

/-- Python values as the repository manipulates them: scalars, plain dicts,
lists, tuples, and already-wrapped DictObject instances.  A DictObject value
carries its backing store and its secondary index `_attribute_to_key_map`. -/
inductive PyVal where
  | str (s : String)
  | int (n : Int)
  | bool (b : Bool)
  | none
  | pydict (entries : List (PyKey × PyVal))
  | pylist (elems : List PyVal)
  | pytuple (elems : List PyVal)
  | dictObject (store : List (PyKey × PyVal)) (amap : List (String × PyKey))

/-- First-match lookup in an association list, as Python dict lookup on the
(duplicate-free) lists we build. -/
def assocLookup {α β : Type} [DecidableEq α] : List (α × β) → α → Option β
  | [], _ => Option.none
  | (a, b) :: rest, k => if a = k then some b else assocLookup rest k

/-- Python dict assignment `d[k] = v`: replace the value in place when the key
is present (keeping its position), append a new entry otherwise. -/
def assocSet {α β : Type} [DecidableEq α] : List (α × β) → α → β → List (α × β)
  | [], k, v => [(k, v)]
  | (a, b) :: rest, k, v =>
    if a = k then (k, v) :: rest else (a, b) :: assocSet rest k v

/-- Python dict deletion `del d[k]`: remove the first entry with the key. -/
def assocErase {α β : Type} [DecidableEq α] : List (α × β) → α → List (α × β)
  | [], _ => []
  | (a, b) :: rest, k => if a = k then rest else (a, b) :: assocErase rest k

/-- State of a DictObject instance: the dict contents (backing store) and the
instance field `_attribute_to_key_map`. -/
structure DictObj where
  store : List (PyKey × PyVal)
  amap : List (String × PyKey)

mutual

/-- Value transformation performed by `DictObject._add_to_object_part`
(src lines 226-232): lists and tuples are rebuilt with each dict, list or
tuple element passed to the DictObject constructor; dict values are passed to
the DictObject constructor; everything else is stored unchanged. -/
def wrapValue : PyVal → Except PyErr PyVal
  | .pylist xs =>
    match wrapElems xs with
    | .error e => .error e
    | .ok ys => .ok (.pylist ys)
  | .pytuple xs =>
    match wrapElems xs with
    | .error e => .error e
    | .ok ys => .ok (.pytuple ys)
  | .pydict es => buildFromEntries [] [] es
  | .dictObject st _ => buildFromEntries [] [] st
  | .str s => .ok (.str s)
  | .int n => .ok (.int n)
  | .bool b => .ok (.bool b)
  | .none => .ok .none

/-- Elementwise treatment of list and tuple contents in
`_add_to_object_part`: `DictObject(x) if isinstance(x, (dict, list, tuple))
else x`.  Calling the DictObject constructor on a list or tuple always raises
TypeError: either `dict.__init__` rejects the iterable, or `merge_dict`
raises `TypeError("Argument is no dict.")` on it (src lines 126-127). -/
def wrapElem : PyVal → Except PyErr PyVal
  | .pydict es => buildFromEntries [] [] es
  | .dictObject st _ => buildFromEntries [] [] st
  | .pylist _ => .error .typeError
  | .pytuple _ => .error .typeError
  | .str s => .ok (.str s)
  | .int n => .ok (.int n)
  | .bool b => .ok (.bool b)
  | .none => .ok .none

def wrapElems : List PyVal → Except PyErr (List PyVal)
  | [] => .ok []
  | x :: xs =>
    match wrapElem x with
    | .error e => .error e
    | .ok y =>
      match wrapElems xs with
      | .error e => .error e
      | .ok ys => .ok (y :: ys)

/-- Construction `DictObject(d)` for a dict argument `d` (src lines 89-98
with 100-132): `dict.__init__` seeds the entries, then `merge_dict` walks the
items in order and, for each, derives the attribute name, stores the wrapped
value, and registers name to key in the secondary index.  The net store holds
every key in first-insertion order with its wrapped value, which the
accumulator threading below reproduces. -/
def buildFromEntries (store : List (PyKey × PyVal)) (amap : List (String × PyKey)) :
    List (PyKey × PyVal) → Except PyErr PyVal
  | [] => .ok (.dictObject store amap)
  | (a, b) :: rest =>
    match get_attribute_name_by_key a with
    | .error e => .error e
    | .ok attr =>
      match wrapValue b with
      | .error e => .error e
      | .ok w => buildFromEntries (assocSet store a w) (assocSet amap attr a) rest

end

/-- Exit condition of the suffix-search loop in `DictObject.__setitem__`
(src lines 275-282): the candidate `attr_i` is acceptable when it is not in
the secondary index, or is in it but already points to this same key. -/
def suffixOk (amap : List (String × PyKey)) (attr : String) (key : PyKey) (i : Nat) : Bool :=
  match assocLookup amap (attr ++ "_" ++ natRepr i) with
  | Option.none => true
  | some k => k = key

/-- Fuel-indexed unfolding of the `while i != 0` search loop: starting at
candidate index `i`, return the first index whose candidate name is
acceptable; when fuel runs out, return the current index. -/
def findSuffixAux (amap : List (String × PyKey)) (attr : String) (key : PyKey) :
    Nat → Nat → Nat
  | 0, i => i
  | fuel + 1, i => if suffixOk amap attr key i then i else findSuffixAux amap attr key fuel (i + 1)

/-- Index chosen by the suffix-search loop, starting from 1.  Fuel one larger
than the size of the secondary index always suffices: the candidate names are
pairwise distinct, so they cannot all be registered to other keys. -/
def findSuffix (amap : List (String × PyKey)) (attr : String) (key : PyKey) : Nat :=
  findSuffixAux amap attr key (amap.length + 1) 1

/-- Translation of `DictObject.__setitem__` (src lines 238-285).  On success
it returns the new state, the attribute name actually registered for the key,
and whether the collision warning was printed. -/
def setItem (o : DictObj) (key : PyKey) (v : PyVal) :
    Except PyErr (DictObj × String × Bool) :=
  match get_attribute_name_by_key key with
  | .error e => .error e
  | .ok attr =>
    match assocLookup o.amap attr with
    | some k =>
      if k = key then
        match wrapValue v with
        | .error e => .error e
        | .ok w => .ok (⟨assocSet o.store key w, assocSet o.amap attr key⟩, attr, false)
      else
        match wrapValue v with
        | .error e => .error e
        | .ok w =>
          .ok (⟨assocSet o.store key w,
                assocSet o.amap (attr ++ "_" ++ natRepr (findSuffix o.amap attr key)) key⟩,
               attr ++ "_" ++ natRepr (findSuffix o.amap attr key), true)
    | Option.none =>
      match wrapValue v with
      | .error e => .error e
      | .ok w => .ok (⟨assocSet o.store key w, assocSet o.amap attr key⟩, attr, false)

/-- Translation of `DictObject.merge_dict` (src lines 100-132) applied to the
entry list of the dict argument: for each entry in order, derive the
attribute name, store the wrapped value, and register name to key in the
secondary index directly. -/
def merge_dict (o : DictObj) : List (PyKey × PyVal) → Except PyErr DictObj
  | [] => .ok o
  | (a, b) :: rest =>
    match get_attribute_name_by_key a with
    | .error e => .error e
    | .ok attr =>
      match wrapValue b with
      | .error e => .error e
      | .ok w => merge_dict ⟨assocSet o.store a w, assocSet o.amap attr a⟩ rest

/-- Translation of `DictObject.__delitem__` (src lines 287-290): recompute the
base attribute name, delete it from the secondary index, then delete the key
from the backing store; a missing name or key raises KeyError. -/
def delItem (o : DictObj) (key : PyKey) : Except PyErr DictObj :=
  match get_attribute_name_by_key key with
  | .error e => .error e
  | .ok attr =>
    match assocLookup o.amap attr with
    | Option.none => .error .keyError
    | some _ =>
      match assocLookup o.store key with
      | Option.none => .error .keyError
      | some _ => .ok ⟨assocErase o.store key, assocErase o.amap attr⟩

/-- Item access: the inherited `dict.__getitem__`. -/
def getItem (o : DictObj) (key : PyKey) : Except PyErr PyVal :=
  match assocLookup o.store key with
  | some v => .ok v
  | Option.none => .error .keyError

/-- Public (non-underscore) attribute names of a DictObject instance: the two
public methods the class defines in the source, and every public method a
dict contributes in any CPython version (the eleven shared ones plus the
Python 2 iteration/view methods).  Every other attribute the object has
begins with an underscore. -/
def publicAttrs : List String :=
  ["merge_dict", "get_attribute_name_by_key",
   "clear", "copy", "fromkeys", "get", "items", "keys", "pop", "popitem",
   "setdefault", "update", "values",
   "has_key", "iteritems", "iterkeys", "itervalues", "viewitems", "viewkeys",
   "viewvalues"]

/-- Attribute names that `dict.__getattribute__` resolves on a DictObject
instance before `__getattr__` consults the secondary index: the public
methods above, the internal field and helper the class defines, the dunder
methods the class overrides (src lines 89, 134, 238, 287, 294, 308, 328,
333), and the attributes inherited from dict and object (taken as the union
over CPython versions). -/
def reservedAttrs : List String :=
  publicAttrs ++
  ["_attribute_to_key_map", "_add_to_object_part",
   "__init__", "__iadd__", "__setitem__", "__delitem__", "__setattr__",
   "__getattr__", "__delattr__", "__contains__",
   "__dict__", "__weakref__", "__module__", "__doc__",
   "__getitem__", "__len__", "__iter__", "__reversed__", "__or__", "__ror__",
   "__ior__", "__class_getitem__", "__sizeof__", "__eq__", "__ne__", "__lt__",
   "__le__", "__gt__", "__ge__", "__hash__",
   "__class__", "__getattribute__", "__new__", "__init_subclass__",
   "__subclasshook__", "__reduce__", "__reduce_ex__", "__getstate__",
   "__repr__", "__str__", "__format__", "__dir__", "__cmp__", "__slots__"]

/-- Leading-underscore test on the character data of a string. -/
def startsUnderscore (s : String) : Bool :=
  match s.data with
  | [] => false
  | c :: _ => c = '_'

/-- Sufficient syntactic condition for a name to be resolvable only through
the secondary index: it neither begins with an underscore nor equals one of
the public method names.  Since the only instance attribute the class ever
creates is `_attribute_to_key_map` (src lines 295-298) and every attribute a
dict or object contributes is either a public method or begins with an
underscore, such a name is never an attribute of the container in any
CPython version. -/
def plainName (s : String) : Bool :=
  !(startsUnderscore s) && !(decide (s ∈ publicAttrs))

/-- Result of Python attribute access on a DictObject. -/
inductive GetAttrResult where
  | builtin
  | val (v : PyVal)
  | attrErr (name : String)

/-- Translation of `DictObject.__getattr__` together with the
`dict.__getattribute__` attempt it starts with (src lines 308-326): a real
attribute of the object is returned as found; otherwise, when the secondary
index is non-empty (truthy), the name is resolved through it and the backing
store, any KeyError becoming `AttributeError(name)`; when the secondary index
is empty (falsy), the method prints a diagnostic and falls through, returning
Python None. -/
def getAttr (o : DictObj) (name : String) : GetAttrResult :=
  if name ∈ reservedAttrs then .builtin
  else if o.amap.isEmpty then .val PyVal.none
  else
    match assocLookup o.amap name with
    | Option.none => .attrErr name
    | some k =>
      match assocLookup o.store k with
      | Option.none => .attrErr name
      | some v => .val v

/-- Result of `DictObject.__setattr__`.  Assigning the reserved name
`_attribute_to_key_map` replaces the internal index itself (src lines
295-298) and is recorded as a distinct outcome. -/
inductive SetAttrResult where
  | ok (o : DictObj)
  | internalFieldSet (v : PyVal)
  | err (e : PyErr)

/-- Translation of `DictObject.__setattr__` (src lines 294-306): resolve the
key registered for the name (the name itself when unregistered), store the
wrapped value under the string key `name` via `_add_to_object_part`, register
name to resolved key, then store the raw value under the resolved key via
`dict.__setitem__`. -/
def setAttr (o : DictObj) (name : String) (v : PyVal) : SetAttrResult :=
  if name = "_attribute_to_key_map" then .internalFieldSet v
  else
    match assocLookup o.amap name with
    | some kk =>
      match wrapValue v with
      | .error e => .err e
      | .ok w =>
        .ok ⟨assocSet (assocSet o.store (.str name) w) kk v, assocSet o.amap name kk⟩
    | Option.none =>
      match wrapValue v with
      | .error e => .err e
      | .ok w =>
        .ok ⟨assocSet (assocSet o.store (.str name) w) (.str name) v,
             assocSet o.amap name (.str name)⟩

/-- Truthiness of `hasattr(self, name)` for a string name: true when
`getattr` does not raise.  `dict.__getattribute__` hits on reserved names;
with an empty (falsy) secondary index `__getattr__` returns None without
raising; otherwise the name must resolve through the index and the store. -/
def hasattrCheck (o : DictObj) (name : String) : Bool :=
  name ∈ reservedAttrs ||
    (if o.amap.isEmpty then true
     else
       match assocLookup o.amap name with
       | Option.none => false
       | some k => (assocLookup o.store k).isSome)

/-- Translation of `DictObject.__contains__` (src lines 333-358):
`dict.__contains__` on the backing store, else `hasattr(self, k)`; the bare
except turns any error - in particular the TypeError `hasattr` raises on a
non-string argument - into False. -/
def pyContains (o : DictObj) (k : PyKey) : Bool :=
  (assocLookup o.store k).isSome ||
    (match k with
     | .str s => hasattrCheck o s
     | _ => false)

/-- Per-entry iteration of `setItem`, the behaviour the specification ascribes
to `merge_dict`: perform the item-set operation for each entry in order,
collecting whether any collision warning was printed. -/
def setItemFold (o : DictObj) : List (PyKey × PyVal) → Except PyErr (DictObj × Bool)
  | [] => .ok (o, false)
  | (a, b) :: rest =>
    match setItem o a b with
    | .error e => .error e
    | .ok (o1, _, w1) =>
      match setItemFold o1 rest with
      | .error e => .error e
      | .ok (o2, w2) => .ok (o2, w1 || w2)

/-- Condition under which no entry of the list collides: at the moment an
entry is processed, its derived base name is either unregistered or already
registered to that same key. -/
def noCollideEntries (amap : List (String × PyKey)) : List (PyKey × PyVal) → Bool
  | [] => true
  | (a, _) :: rest =>
    match get_attribute_name_by_key a with
    | .error _ => true
    | .ok attr =>
      (match assocLookup amap attr with
       | Option.none => true
       | some k => decide (k = a)) &&
      noCollideEntries (assocSet amap attr a) rest

/-! Helper lemmas about association lists. -/

theorem assocLookup_set_self {α β : Type} [DecidableEq α] (l : List (α × β)) (k : α) (v : β) :
    assocLookup (assocSet l k v) k = some v := by
  induction l with
  | nil => simp [assocSet, assocLookup]
  | cons p rest ih =>
    obtain ⟨a, b⟩ := p
    by_cases h : a = k <;> simp [assocSet, assocLookup, h, ih]

theorem assocLookup_set_ne {α β : Type} [DecidableEq α] (l : List (α × β)) (k k' : α) (v : β)
    (h : k' ≠ k) : assocLookup (assocSet l k v) k' = assocLookup l k' := by
  induction l with
  | nil =>
    simp only [assocSet, assocLookup]
    rw [if_neg (fun hh => h hh.symm)]
  | cons p rest ih =>
    obtain ⟨a, b⟩ := p
    by_cases ha : a = k
    · subst ha
      have hne : ¬a = k' := fun hh => h hh.symm
      simp [assocSet, assocLookup, hne]
    · simp [assocSet, assocLookup, ha, ih]

theorem assocSet_isEmpty {α β : Type} [DecidableEq α] (l : List (α × β)) (k : α) (v : β) :
    (assocSet l k v).isEmpty = false := by
  cases l with
  | nil => rfl
  | cons p rest =>
    obtain ⟨a, b⟩ := p
    simp only [assocSet]
    split <;> rfl

theorem assocLookup_mem_keys {α β : Type} [DecidableEq α] {l : List (α × β)} {k : α} {v : β}
    (h : assocLookup l k = some v) : k ∈ l.map Prod.fst := by
  induction l with
  | nil => simp [assocLookup] at h
  | cons p rest ih =>
    obtain ⟨a, b⟩ := p
    by_cases ha : a = k
    · subst ha; simp
    · simp [assocLookup, ha] at h
      simp [ih h]

/-! Injectivity of the decimal rendering, needed to show the suffix-search
loop terminates: distinct candidate indices give distinct candidate names. -/

/-- Numeric value of a decimal digit character. -/
def digitVal (c : Char) : Nat := c.toNat - 48

/-- Value of a most-significant-first digit string. -/
def digitsVal (l : List Char) : Nat := l.foldl (fun acc c => acc * 10 + digitVal c) 0

theorem digitsVal_append_digit (l : List Char) (c : Char) :
    digitsVal (l ++ [c]) = digitsVal l * 10 + digitVal c := by
  simp [digitsVal, List.foldl_append]

theorem digitVal_digitChar {d : Nat} (h : d < 10) : digitVal (digitChar d) = d := by
  interval_cases d <;> rfl

theorem digitsVal_natDigitsAux : ∀ fuel n, n < fuel → digitsVal (natDigitsAux fuel n) = n := by
  intro fuel
  induction fuel with
  | zero => omega
  | succ fuel ih =>
    intro n hn
    by_cases h : n < 10
    · simp [natDigitsAux, h, digitsVal, digitVal_digitChar h]
    · have h0 : 0 < n := by omega
      have hdiv : n / 10 < n := Nat.div_lt_self h0 (by omega)
      have hdivfuel : n / 10 < fuel := by omega
      have hmod : n % 10 < 10 := Nat.mod_lt _ (by omega)
      simp only [natDigitsAux, h, if_false]
      rw [digitsVal_append_digit, ih _ hdivfuel, digitVal_digitChar hmod]
      omega

theorem digitsVal_natDigits (n : Nat) : digitsVal (natDigits n) = n :=
  digitsVal_natDigitsAux (n + 1) n (by omega)

theorem natRepr_inj {m n : Nat} (h : natRepr m = natRepr n) : m = n := by
  have hd : natDigits m = natDigits n := congrArg String.data h
  have := congrArg digitsVal hd
  rwa [digitsVal_natDigits, digitsVal_natDigits] at this

theorem strData_append (s t : String) : (s ++ t).data = s.data ++ t.data := rfl

theorem suffixName_inj (attr : String) {i j : Nat}
    (h : attr ++ "_" ++ natRepr i = attr ++ "_" ++ natRepr j) : i = j := by
  have hd := congrArg String.data h
  rw [strData_append, strData_append, strData_append, strData_append] at hd
  have h2 := List.append_cancel_left hd
  exact natRepr_inj (congrArg String.mk h2)

/-! Termination of the suffix-search loop: among the first `amap.length + 1`
candidate names at least one is acceptable, because they are pairwise
distinct and the secondary index holds only `amap.length` names. -/

theorem exists_suffixOk (amap : List (String × PyKey)) (attr : String) (key : PyKey) :
    ∃ i, 1 ≤ i ∧ i ≤ amap.length + 1 ∧ suffixOk amap attr key i = true := by
  by_contra hc
  push_neg at hc
  have hbad : ∀ j ∈ Finset.range (amap.length + 1),
      (attr ++ "_" ++ natRepr (j + 1)) ∈ amap.map Prod.fst := by
    intro j hj
    rw [Finset.mem_range] at hj
    have h1 := hc (j + 1) (by omega) (by omega)
    unfold suffixOk at h1
    cases hlook : assocLookup amap (attr ++ "_" ++ natRepr (j + 1)) with
    | none => rw [hlook] at h1; simp at h1
    | some k => exact assocLookup_mem_keys hlook
  have hinj : Set.InjOn (fun j => attr ++ "_" ++ natRepr (j + 1))
      ↑(Finset.range (amap.length + 1)) := by
    intro a _ b _ hab
    have := suffixName_inj attr hab
    omega
  have hcard : ((Finset.range (amap.length + 1)).image
      (fun j => attr ++ "_" ++ natRepr (j + 1))).card = amap.length + 1 := by
    rw [Finset.card_image_of_injOn hinj, Finset.card_range]
  have hsub : ((Finset.range (amap.length + 1)).image
      (fun j => attr ++ "_" ++ natRepr (j + 1))) ⊆ (amap.map Prod.fst).toFinset := by
    intro x hx
    rw [Finset.mem_image] at hx
    obtain ⟨j, hj, rfl⟩ := hx
    exact List.mem_toFinset.2 (hbad j hj)
  have hle := Finset.card_le_card hsub
  have hfin : (amap.map Prod.fst).toFinset.card ≤ amap.length := by
    have := List.toFinset_card_le (l := amap.map Prod.fst)
    simpa using this
  omega

theorem findSuffixAux_spec (amap : List (String × PyKey)) (attr : String) (key : PyKey) :
    ∀ fuel i, (∃ j, i ≤ j ∧ j < i + fuel ∧ suffixOk amap attr key j = true) →
      suffixOk amap attr key (findSuffixAux amap attr key fuel i) = true ∧
      i ≤ findSuffixAux amap attr key fuel i ∧
      ∀ j, i ≤ j → j < findSuffixAux amap attr key fuel i →
        suffixOk amap attr key j = false := by
  intro fuel
  induction fuel with
  | zero =>
    rintro i ⟨j, hj1, hj2, _⟩
    omega
  | succ fuel ih =>
    intro i hex
    by_cases h : suffixOk amap attr key i = true
    · refine ⟨by simp [findSuffixAux, h], by simp [findSuffixAux, h], ?_⟩
      intro j hj1 hj2
      simp [findSuffixAux, h] at hj2
      omega
    · have h' : suffixOk amap attr key i = false := by
        cases hb : suffixOk amap attr key i
        · rfl
        · exact absurd hb h
      obtain ⟨j, hj1, hj2, hj3⟩ := hex
      have hji : j ≠ i := fun hh => by rw [hh] at hj3; exact h hj3
      have hex' : ∃ j, i + 1 ≤ j ∧ j < (i + 1) + fuel ∧ suffixOk amap attr key j = true :=
        ⟨j, by omega, by omega, hj3⟩
      obtain ⟨a1, a2, a3⟩ := ih (i + 1) hex'
      rw [show findSuffixAux amap attr key (fuel + 1) i
            = findSuffixAux amap attr key fuel (i + 1) by simp [findSuffixAux, h']]
      refine ⟨a1, by omega, ?_⟩
      intro j' hj'1 hj'2
      rcases Nat.eq_or_lt_of_le hj'1 with heq | hlt
      · rw [← heq]; exact h'
      · exact a3 j' (by omega) hj'2

theorem findSuffix_least (amap : List (String × PyKey)) (attr : String) (key : PyKey) :
    0 < findSuffix amap attr key ∧
    suffixOk amap attr key (findSuffix amap attr key) = true ∧
    ∀ j, 0 < j → j < findSuffix amap attr key → suffixOk amap attr key j = false := by
  obtain ⟨i, hi1, hi2, hi3⟩ := exists_suffixOk amap attr key
  have hex : ∃ j, 1 ≤ j ∧ j < 1 + (amap.length + 1) ∧ suffixOk amap attr key j = true :=
    ⟨i, hi1, by omega, hi3⟩
  obtain ⟨a1, a2, a3⟩ := findSuffixAux_spec amap attr key (amap.length + 1) 1 hex
  exact ⟨by unfold findSuffix; omega, a1, fun j hj1 hj2 => a3 j (by omega) hj2⟩

/-- Anatomy of a successful `setItem`: the derivation and the wrapping
succeeded, the store gains the wrapped value under the key, the secondary
index gains the registered name, and the registered name is either the base
name (no warning: the base name was free or already pointed to this key) or
the suffixed name chosen by the search loop (warning: the base name pointed
to a different key). -/
theorem setItem_ok_shape {o : DictObj} {key : PyKey} {v : PyVal} {o' : DictObj}
    {nm : String} {warned : Bool} (h : setItem o key v = .ok (o', nm, warned)) :
    ∃ attr w, get_attribute_name_by_key key = .ok attr ∧ wrapValue v = .ok w ∧
      o' = ⟨assocSet o.store key w, assocSet o.amap nm key⟩ ∧
      ((warned = false ∧ nm = attr ∧
        (assocLookup o.amap attr = Option.none ∨ assocLookup o.amap attr = some key)) ∨
       (warned = true ∧ nm = attr ++ "_" ++ natRepr (findSuffix o.amap attr key) ∧
        ∃ k0, assocLookup o.amap attr = some k0 ∧ k0 ≠ key)) := by
  unfold setItem at h
  split at h
  next e hA => exact absurd h (by simp)
  next attr hA =>
    refine ⟨attr, ?_⟩
    split at h
    next k0 hL =>
      split at h
      next hk =>
        subst hk
        split at h
        next e hW => exact absurd h (by simp)
        next w hW =>
          simp only [Except.ok.injEq, Prod.mk.injEq] at h
          obtain ⟨ho, hnm, hwd⟩ := h
          exact ⟨w, hA, hW, by rw [← ho, hnm],
            Or.inl ⟨hwd.symm, hnm.symm, Or.inr hL⟩⟩
      next hk =>
        split at h
        next e hW => exact absurd h (by simp)
        next w hW =>
          simp only [Except.ok.injEq, Prod.mk.injEq] at h
          obtain ⟨ho, hnm, hwd⟩ := h
          exact ⟨w, hA, hW, by rw [← ho, hnm],
            Or.inr ⟨hwd.symm, hnm.symm, k0, hL, hk⟩⟩
    next hL =>
      split at h
      next e hW => exact absurd h (by simp)
      next w hW =>
        simp only [Except.ok.injEq, Prod.mk.injEq] at h
        obtain ⟨ho, hnm, hwd⟩ := h
        exact ⟨w, hA, hW, by rw [← ho, hnm],
          Or.inl ⟨hwd.symm, hnm.symm, Or.inl hL⟩⟩

/-- C8: identifier-name derivation is the function
`get_attribute_name_by_key`, and it derives data_False from key False,
data_None from key None, int_2 from key 2, and foo_2_4_ from the key
"foo-2.4;\"" (each maximal illegal run collapsing to one underscore). -/
theorem C8_name_derivation :
    get_attribute_name_by_key (.bool false) = .ok "data_False" ∧
    get_attribute_name_by_key .none = .ok "data_None" ∧
    get_attribute_name_by_key (.int 2) = .ok "int_2" ∧
    get_attribute_name_by_key (.str "foo-2.4;\"") = .ok "foo_2_4_" :=
  ⟨rfl, rfl, rfl, rfl⟩

/-- C9: on the empty-string key the derivation indexes the first character of
an empty string and raises IndexError, so item-set, merge and item-delete all
fail on that key instead of storing or removing an entry. -/
theorem C9_empty_string_key (o : DictObj) (v : PyVal) :
    get_attribute_name_by_key (.str "") = .error .indexError ∧
    setItem o (.str "") v = .error .indexError ∧
    merge_dict o [(.str "", v)] = .error .indexError ∧
    delItem o (.str "") = .error .indexError :=
  ⟨rfl, rfl, rfl, rfl⟩

/-- C10: for every secondary-index state the suffix-search loop of
`__setitem__` terminates: there is a smallest positive N whose candidate name
is unregistered or already points to this same key, and the loop returns
exactly that N. -/
theorem C10_suffix_loop_terminates (amap : List (String × PyKey)) (attr : String)
    (key : PyKey) :
    ∃ N, 0 < N ∧ suffixOk amap attr key N = true ∧
      (∀ j, 0 < j → j < N → suffixOk amap attr key j = false) ∧
      findSuffix amap attr key = N := by
  obtain ⟨h1, h2, h3⟩ := findSuffix_least amap attr key
  exact ⟨findSuffix amap attr key, h1, h2, h3, rfl⟩

/-- C5: a nested mapping value is indeed recursively wrapped on insertion,
but a sequence element that is itself a sequence is passed to the DictObject
constructor, which raises TypeError, so inserting such a nested sequence
fails instead of rebuilding it with wrapped elements. -/
theorem C5_nested_sequence_raises :
    setItem ⟨[], []⟩ (.str "k") (.pydict [(.str "a", .int 1)]) =
      .ok (⟨[(.str "k", .dictObject [(.str "a", .int 1)] [("a", .str "a")])],
            [("k", .str "k")]⟩, "k", false) ∧
    setItem ⟨[], []⟩ (.str "k") (.pylist [.pylist [.int 1]]) = .error .typeError ∧
    setItem ⟨[], []⟩ (.str "k") (.pytuple [.pytuple [.int 1]]) = .error .typeError ∧
    setItem ⟨[], []⟩ (.str "k") (.pylist [.int 1, .int 2]) =
      .ok (⟨[(.str "k", .pylist [.int 1, .int 2])], [("k", .str "k")]⟩, "k", false) :=
  ⟨rfl, rfl, rfl, rfl⟩

/-- Every reserved attribute name either begins with an underscore or is one
of the public method names, checked by computation over the list. -/
theorem reserved_underscore_or_public :
    ∀ x ∈ reservedAttrs, startsUnderscore x = true ∨ x ∈ publicAttrs := by decide

/-- A name satisfying the syntactic condition `plainName` is not a reserved
attribute, so attribute access on it always goes through the secondary
index. -/
theorem plainName_not_reserved {s : String} (h : plainName s = true) :
    s ∉ reservedAttrs := by
  intro hmem
  rw [plainName, Bool.and_eq_true] at h
  obtain ⟨h1, h2⟩ := h
  rcases reserved_underscore_or_public s hmem with hu | hp
  · rw [hu] at h1
    exact absurd h1 (by simp)
  · simp [hp] at h2

/-- C1 counterexample: for the key "merge_dict" the registered resolved name
is "merge_dict", but attribute access with that name finds the class method
through `dict.__getattribute__` and returns it, not the stored value. -/
theorem C1_counterexample :
    setItem ⟨[], []⟩ (.str "merge_dict") (.int 5) =
      .ok (⟨[(.str "merge_dict", .int 5)], [("merge_dict", .str "merge_dict")]⟩,
           "merge_dict", false) ∧
    getAttr ⟨[(.str "merge_dict", .int 5)], [("merge_dict", .str "merge_dict")]⟩
      "merge_dict" = .builtin ∧
    ∀ v, GetAttrResult.builtin ≠ GetAttrResult.val v :=
  ⟨rfl, rfl, fun _ h => nomatch h⟩

/-- C1 (amended): after a successful `setItem`, item access with the key
returns the wrapped value, and attribute access with the resolved registered
name returns that same wrapped value, provided the resolved name is not an
attribute the container object itself has (method, inherited or dunder
attribute, internal field); the hypothesis uses the sufficient syntactic
condition that the name neither begins with an underscore nor equals a
public method name. -/
theorem C1_set_then_access (o : DictObj) (key : PyKey) (v : PyVal) (o' : DictObj)
    (nm : String) (warned : Bool)
    (hset : setItem o key v = .ok (o', nm, warned)) (hres : plainName nm = true) :
    ∃ w, wrapValue v = .ok w ∧ getItem o' key = .ok w ∧ getAttr o' nm = .val w := by
  have hres' : nm ∉ reservedAttrs := plainName_not_reserved hres
  obtain ⟨attr, w, -, hW, ho, -⟩ := setItem_ok_shape hset
  refine ⟨w, hW, ?_, ?_⟩
  · rw [ho]
    simp [getItem, assocLookup_set_self]
  · rw [ho]
    simp [getAttr, hres', assocSet_isEmpty, assocLookup_set_self]

theorem C1_witness :
    ∃ w, wrapValue (.int 5) = .ok w ∧
      getItem ⟨[(.str "foo", .int 5)], [("foo", .str "foo")]⟩ (.str "foo") = .ok w ∧
      getAttr ⟨[(.str "foo", .int 5)], [("foo", .str "foo")]⟩ "foo" = .val w :=
  C1_set_then_access ⟨[], []⟩ (.str "foo") (.int 5)
    ⟨[(.str "foo", .int 5)], [("foo", .str "foo")]⟩ "foo" false rfl (by decide)

/-- C6 counterexample: on a container whose secondary index is empty,
attribute access for an unregistered, non-reserved name returns Python None
instead of failing with an AttributeError carrying the name. -/
theorem C6_counterexample :
    getAttr ⟨[], []⟩ "foo" = .val PyVal.none ∧
    getAttr ⟨[], []⟩ "foo" ≠ .attrErr "foo" :=
  ⟨rfl, fun h => nomatch h⟩

/-- C6 (amended): for a name the container does not have as an attribute of
its own (sufficient syntactic condition: no leading underscore and not a
public method name), attribute access fails with an AttributeError carrying
the name whenever the secondary index is non-empty and the name is
unregistered, or the registered key is gone from the backing store; when the
secondary index is empty it instead prints a diagnostic and returns Python
None. -/
theorem C6_attr_error (o : DictObj) (name : String) (hres : plainName name = true) :
    (o.amap = [] → getAttr o name = .val PyVal.none) ∧
    (o.amap ≠ [] → assocLookup o.amap name = Option.none →
      getAttr o name = .attrErr name) ∧
    (∀ k, assocLookup o.amap name = some k → assocLookup o.store k = Option.none →
      getAttr o name = .attrErr name) := by
  have hres' : name ∉ reservedAttrs := plainName_not_reserved hres
  refine ⟨?_, ?_, ?_⟩
  · intro hmap
    simp [getAttr, hres', hmap]
  · intro hmap hlook
    have hne : o.amap.isEmpty = false := by
      cases hm : o.amap.isEmpty
      · rfl
      · exact absurd (List.isEmpty_iff.mp hm) hmap
    simp [getAttr, hres', hne, hlook]
  · intro k hlook hstore
    have hne : o.amap.isEmpty = false := by
      cases hm : o.amap.isEmpty
      · rfl
      · rw [List.isEmpty_iff.mp hm] at hlook
        exact absurd hlook (by simp [assocLookup])
    simp [getAttr, hres', hne, hlook, hstore]

theorem C6_witness :
    getAttr ⟨[], []⟩ "fox" = .val PyVal.none ∧
    getAttr ⟨[], [("bar", .str "x")]⟩ "fox" = .attrErr "fox" ∧
    getAttr ⟨[], [("fox", .str "x")]⟩ "fox" = .attrErr "fox" :=
  ⟨(C6_attr_error ⟨[], []⟩ "fox" (by decide)).1 rfl,
   (C6_attr_error ⟨[], [("bar", .str "x")]⟩ "fox" (by decide)).2.1 (by simp) rfl,
   (C6_attr_error ⟨[], [("fox", .str "x")]⟩ "fox" (by decide)).2.2 (.str "x") rfl rfl⟩

/-- C7: the containment check is a total boolean function (the bare except of
the source catches every error): it answers true when the key is a
backing-store key, and when the key is a string registered in the secondary
index whose registered key is present in the store; for a non-string key
absent from the store, the attribute fallback raises inside `hasattr` and the
check answers false. -/
theorem C7_contains_total (o : DictObj) (k : PyKey) :
    ((assocLookup o.store k).isSome = true → pyContains o k = true) ∧
    (∀ s kk, k = .str s → assocLookup o.amap s = some kk →
      (assocLookup o.store kk).isSome = true → pyContains o k = true) ∧
    ((∀ s, k ≠ .str s) → (assocLookup o.store k).isSome = false →
      pyContains o k = false) := by
  refine ⟨?_, ?_, ?_⟩
  · intro h
    simp [pyContains, h]
  · rintro s kk rfl hlook hstore
    have hne : o.amap.isEmpty = false := by
      cases hm : o.amap.isEmpty
      · rfl
      · rw [List.isEmpty_iff.mp hm] at hlook
        exact absurd hlook (by simp [assocLookup])
    simp [pyContains, hasattrCheck, hne, hlook, hstore]
  · intro hstr hstore
    cases k with
    | str s => exact absurd rfl (hstr s)
    | int n => simp [pyContains, hstore]
    | bool b => simp [pyContains, hstore]
    | none => simp [pyContains, hstore]

theorem C7_witness :
    pyContains ⟨[(.str "a", .int 1)], [("a", .str "a")]⟩ (.str "a") = true ∧
    pyContains ⟨[(.str "x", .int 1)], [("name", .str "x")]⟩ (.str "name") = true ∧
    pyContains ⟨[], [("b", .str "b")]⟩ .none = false :=
  ⟨(C7_contains_total ⟨[(.str "a", .int 1)], [("a", .str "a")]⟩ (.str "a")).1 rfl,
   (C7_contains_total ⟨[(.str "x", .int 1)], [("name", .str "x")]⟩ (.str "name")).2.1
     "name" (.str "x") rfl rfl rfl,
   (C7_contains_total ⟨[], [("b", .str "b")]⟩ .none).2.2
     (fun _ h => nomatch h) rfl⟩

/-- C4 counterexample: for the registered name "foo_bar" with key "foo-bar",
attribute assignment creates a second backing-store entry under the string
key "foo_bar" (which was not a store key before) holding the wrapped value,
and stores the raw, unwrapped value under the registered key. -/
theorem C4_counterexample :
    setAttr ⟨[(.str "foo-bar", .int 1)], [("foo_bar", .str "foo-bar")]⟩ "foo_bar"
        (.pydict [(.str "a", .int 2)]) =
      .ok ⟨[(.str "foo-bar", .pydict [(.str "a", .int 2)]),
            (.str "foo_bar", .dictObject [(.str "a", .int 2)] [("a", .str "a")])],
           [("foo_bar", .str "foo-bar")]⟩ ∧
    assocLookup [(PyKey.str "foo-bar", PyVal.int 1)] (PyKey.str "foo_bar") =
      Option.none ∧
    ∀ es am, PyVal.pydict es ≠ PyVal.dictObject es am :=
  ⟨rfl, rfl, fun _ _ h => nomatch h⟩

/-- C4 (amended): for a non-internal attribute name with a registered key,
attribute assignment keeps the registration, stores the raw (unwrapped) value
under the registered key, additionally stores the recursively wrapped value
under the attribute name itself used as a string key (a new entry whenever
that string key differs from the registered key), and touches no other
entry of either map. -/
theorem C4_setattr_existing (o : DictObj) (name : String) (v w : PyVal) (kk : PyKey)
    (hname : name ≠ "_attribute_to_key_map")
    (hreg : assocLookup o.amap name = some kk)
    (hwrap : wrapValue v = .ok w) :
    ∃ o', setAttr o name v = .ok o' ∧
      assocLookup o'.amap name = some kk ∧
      (∀ n', n' ≠ name → assocLookup o'.amap n' = assocLookup o.amap n') ∧
      assocLookup o'.store kk = some v ∧
      (kk ≠ .str name → assocLookup o'.store (.str name) = some w) ∧
      (∀ k', k' ≠ kk → k' ≠ .str name →
        assocLookup o'.store k' = assocLookup o.store k') := by
  refine ⟨⟨assocSet (assocSet o.store (.str name) w) kk v, assocSet o.amap name kk⟩,
    ?_, ?_, ?_, ?_, ?_, ?_⟩
  · simp [setAttr, hname, hreg, hwrap]
  · exact assocLookup_set_self _ _ _
  · intro n' hn'
    exact assocLookup_set_ne _ _ _ _ hn'
  · exact assocLookup_set_self _ _ _
  · intro hkk
    rw [assocLookup_set_ne _ _ _ _ (fun hh => hkk hh.symm)]
    exact assocLookup_set_self _ _ _
  · intro k' h1 h2
    rw [assocLookup_set_ne _ _ _ _ h1, assocLookup_set_ne _ _ _ _ h2]

theorem C4_witness :
    ∃ o', setAttr ⟨[(.str "foo-bar", .int 1)], [("foo_bar", .str "foo-bar")]⟩
        "foo_bar" (.int 7) = .ok o' ∧
      assocLookup o'.amap "foo_bar" = some (.str "foo-bar") ∧
      (∀ n', n' ≠ "foo_bar" →
        assocLookup o'.amap n' = assocLookup [("foo_bar", PyKey.str "foo-bar")] n') ∧
      assocLookup o'.store (.str "foo-bar") = some (.int 7) ∧
      (PyKey.str "foo-bar" ≠ .str "foo_bar" →
        assocLookup o'.store (.str "foo_bar") = some (.int 7)) ∧
      (∀ k', k' ≠ .str "foo-bar" → k' ≠ .str "foo_bar" →
        assocLookup o'.store k' =
          assocLookup [(PyKey.str "foo-bar", PyVal.int 1)] k') :=
  C4_setattr_existing ⟨[(.str "foo-bar", .int 1)], [("foo_bar", .str "foo-bar")]⟩
    "foo_bar" (.int 7) (.int 7) (.str "foo-bar") (by decide) rfl rfl

/-- C3 counterexample: after key "1" registers the base name int_1, merging
the entry with key 1 re-registers int_1 to the key 1 directly, so the base
identifier no longer refers to the first key ever mapped to it. -/
theorem C3_counterexample :
    setItem ⟨[], []⟩ (.str "1") (.str "a") =
      .ok (⟨[(.str "1", .str "a")], [("int_1", .str "1")]⟩, "int_1", false) ∧
    merge_dict ⟨[(.str "1", .str "a")], [("int_1", .str "1")]⟩ [(.int 1, .str "b")] =
      .ok ⟨[(.str "1", .str "a"), (.int 1, .str "b")], [("int_1", .int 1)]⟩ ∧
    assocLookup [("int_1", PyKey.int 1)] "int_1" ≠ some (PyKey.str "1") :=
  ⟨rfl, rfl, by decide⟩

/-- C3 (amended): item-set and attribute-set never re-point an existing
registration of the secondary index to a different key, and when item-set
collides it registers the base name suffixed with the smallest free index
not already belonging to that same key; merge, however, registers the base
name directly and can re-point it to the merged key. -/
theorem C3_index_stability :
    (∀ (o : DictObj) (key : PyKey) (v : PyVal) (o' : DictObj) (nm : String)
        (warned : Bool), setItem o key v = .ok (o', nm, warned) →
      ∀ n k, assocLookup o.amap n = some k → assocLookup o'.amap n = some k) ∧
    (∀ (o : DictObj) (name : String) (v : PyVal) (o' : DictObj),
        setAttr o name v = .ok o' →
      ∀ n k, assocLookup o.amap n = some k → assocLookup o'.amap n = some k) ∧
    (∀ (o : DictObj) (key : PyKey) (v : PyVal) (o' : DictObj) (nm : String),
        setItem o key v = .ok (o', nm, true) →
      ∀ attr, get_attribute_name_by_key key = .ok attr →
        nm = attr ++ "_" ++ natRepr (findSuffix o.amap attr key) ∧
        suffixOk o.amap attr key (findSuffix o.amap attr key) = true ∧
        ∀ j, 0 < j → j < findSuffix o.amap attr key →
          suffixOk o.amap attr key j = false) := by
  refine ⟨?_, ?_, ?_⟩
  · intro o key v o' nm warned hset n k hn
    obtain ⟨attr, w, hA, hW, ho, hcase⟩ := setItem_ok_shape hset
    rw [ho]
    by_cases hnm : n = nm
    · subst hnm
      rw [assocLookup_set_self]
      rcases hcase with ⟨-, heq, hor⟩ | ⟨-, heq, k0, hk0, hne⟩
      · subst heq
        rcases hor with hnone | hkey
        · rw [hn] at hnone; exact absurd hnone (by simp)
        · rw [hn] at hkey
          simp only [Option.some.injEq] at hkey
          rw [hkey]
      · obtain ⟨-, h2, -⟩ := findSuffix_least o.amap attr key
        unfold suffixOk at h2
        rw [← heq, hn] at h2
        simp only [decide_eq_true_eq] at h2
        rw [h2]
    · rw [assocLookup_set_ne _ _ _ _ hnm]
      exact hn
  · intro o name v o' hset n k hn
    unfold setAttr at hset
    split at hset
    · exact absurd hset (by simp)
    · split at hset
      next kk hkk =>
        split at hset
        next e hW => exact absurd hset (by simp)
        next w hW =>
          simp only [SetAttrResult.ok.injEq] at hset
          rw [← hset]
          by_cases hnm : n = name
          · subst hnm
            rw [hn] at hkk
            simp only [Option.some.injEq] at hkk
            rw [assocLookup_set_self, hkk]
          · rw [assocLookup_set_ne _ _ _ _ hnm]
            exact hn
      next hkk =>
        split at hset
        next e hW => exact absurd hset (by simp)
        next w hW =>
          simp only [SetAttrResult.ok.injEq] at hset
          rw [← hset]
          by_cases hnm : n = name
          · subst hnm
            rw [hn] at hkk
            exact absurd hkk (by simp)
          · rw [assocLookup_set_ne _ _ _ _ hnm]
            exact hn
  · intro o key v o' nm hset attr' hA'
    obtain ⟨attr, w, hA, hW, ho, hcase⟩ := setItem_ok_shape hset
    rw [hA] at hA'
    simp only [Except.ok.injEq] at hA'
    subst hA'
    rcases hcase with ⟨hfalse, -, -⟩ | ⟨-, heq, -⟩
    · exact absurd hfalse (by simp)
    · obtain ⟨-, h2, h3⟩ := findSuffix_least o.amap attr key
      exact ⟨heq, h2, h3⟩

theorem C3_witness :
    assocLookup [("a", PyKey.str "a"), ("b", PyKey.str "b")] "a" =
      some (PyKey.str "a") ∧
    assocLookup [("a", PyKey.str "a"), ("c", PyKey.str "c")] "a" =
      some (PyKey.str "a") ∧
    ("int_1_1" =
        "int_1" ++ "_" ++
          natRepr (findSuffix [("int_1", PyKey.str "1")] "int_1" (PyKey.int 1)) ∧
      suffixOk [("int_1", PyKey.str "1")] "int_1" (PyKey.int 1)
        (findSuffix [("int_1", PyKey.str "1")] "int_1" (PyKey.int 1)) = true ∧
      ∀ j, 0 < j → j < findSuffix [("int_1", PyKey.str "1")] "int_1" (PyKey.int 1) →
        suffixOk [("int_1", PyKey.str "1")] "int_1" (PyKey.int 1) j = false) :=
  ⟨C3_index_stability.1 ⟨[], [("a", .str "a")]⟩ (.str "b") (.int 1)
      ⟨[(.str "b", .int 1)], [("a", .str "a"), ("b", .str "b")]⟩ "b" false rfl
      "a" (.str "a") rfl,
   C3_index_stability.2.1 ⟨[], [("a", .str "a")]⟩ "c" (.int 2)
      ⟨[(.str "c", .int 2)], [("a", .str "a"), ("c", .str "c")]⟩ rfl
      "a" (.str "a") rfl,
   C3_index_stability.2.2 ⟨[(.str "1", .str "a")], [("int_1", .str "1")]⟩
      (.int 1) (.str "b")
      ⟨[(.str "1", .str "a"), (.int 1, .str "b")],
       [("int_1", .str "1"), ("int_1_1", .int 1)]⟩ "int_1_1" rfl "int_1" rfl⟩

/-- C2 counterexample: merging an entry whose base name is registered to a
different key does not behave like the item-set operation: merge re-registers
the base name int_1 directly (and never warns), while per-entry item-set
registers the suffixed name int_1_1 (and warns), so the resulting secondary
indexes differ. -/
theorem C2_counterexample :
    merge_dict ⟨[(.str "1", .str "a")], [("int_1", .str "1")]⟩ [(.int 1, .str "b")] =
      .ok ⟨[(.str "1", .str "a"), (.int 1, .str "b")], [("int_1", .int 1)]⟩ ∧
    setItemFold ⟨[(.str "1", .str "a")], [("int_1", .str "1")]⟩ [(.int 1, .str "b")] =
      .ok (⟨[(.str "1", .str "a"), (.int 1, .str "b")],
            [("int_1", .str "1"), ("int_1_1", .int 1)]⟩, true) ∧
    assocLookup [("int_1", PyKey.int 1)] "int_1_1" ≠
      assocLookup [("int_1", PyKey.str "1"), ("int_1_1", PyKey.int 1)] "int_1_1" :=
  ⟨rfl, rfl, by decide⟩

/-- C2 (amended): merge iterates the source entries in their natural order
and, for each, wraps and stores the value exactly as item-set does, but
registers the base identifier name directly, without the collision-or-reuse
logic and without warnings; consequently merge coincides with performing the
item-set operation entry by entry - with no collision warning emitted -
exactly when no entry's base name is registered to a different key at the
moment it is processed (in particular when re-setting existing keys). -/
theorem C2_merge_vs_setitem (o : DictObj) (es : List (PyKey × PyVal))
    (h : noCollideEntries o.amap es = true) :
    setItemFold o es = Except.map (fun o2 => (o2, false)) (merge_dict o es) := by
  induction es generalizing o with
  | nil => rfl
  | cons p rest ih =>
    obtain ⟨a, b⟩ := p
    cases hA : get_attribute_name_by_key a with
    | error e =>
      simp [setItemFold, setItem, merge_dict, hA, Except.map]
    | ok attr =>
      simp only [noCollideEntries, hA, Bool.and_eq_true] at h
      obtain ⟨h1, h2⟩ := h
      cases hW : wrapValue b with
      | error e =>
        cases hL : assocLookup o.amap attr with
        | none => simp [setItemFold, setItem, merge_dict, hA, hL, hW, Except.map]
        | some k =>
          rw [hL] at h1
          simp only [decide_eq_true_eq] at h1
          subst h1
          simp [setItemFold, setItem, merge_dict, hA, hL, hW, Except.map]
      | ok w =>
        cases hL : assocLookup o.amap attr with
        | none =>
          have ihh := ih ⟨assocSet o.store a w, assocSet o.amap attr a⟩ h2
          simp only [setItemFold, setItem, merge_dict, hA, hL, hW]
          rw [ihh]
          cases merge_dict ⟨assocSet o.store a w, assocSet o.amap attr a⟩ rest with
          | error e => simp [Except.map]
          | ok o2 => simp [Except.map]
        | some k =>
          rw [hL] at h1
          simp only [decide_eq_true_eq] at h1
          subst h1
          have ihh := ih ⟨assocSet o.store k w, assocSet o.amap attr k⟩ h2
          simp only [setItemFold, setItem, merge_dict, hA, hL, hW, if_pos rfl, if_true]
          rw [ihh]
          cases merge_dict ⟨assocSet o.store k w, assocSet o.amap attr k⟩ rest with
          | error e => simp [Except.map]
          | ok o2 => simp [Except.map]

theorem C2_witness :
    noCollideEntries ([] : List (String × PyKey))
      [(PyKey.str "x", PyVal.int 1), (PyKey.str "x", PyVal.int 2)] = true ∧
    setItemFold ⟨[], []⟩ [(PyKey.str "x", PyVal.int 1), (PyKey.str "x", PyVal.int 2)] =
      Except.map (fun o2 => (o2, false))
        (merge_dict ⟨[], []⟩ [(PyKey.str "x", PyVal.int 1), (PyKey.str "x", PyVal.int 2)]) :=
  ⟨rfl, C2_merge_vs_setitem ⟨[], []⟩
    [(PyKey.str "x", PyVal.int 1), (PyKey.str "x", PyVal.int 2)] rfl⟩
